import Mathlib

/-!
A shallow embedding of tradeship's dependency registry (`src/dep-registry.js`),
its import composer and source rewriter (`src/lib/importer.js`), and library
entrypoint guard (`src/importer.js`), together with theorems checking the
specification's claims about them.

Module text is modelled as Lean `String` (for the registry and the statement
composer) and as `List Char` (for the line-based source rewriter).  Character
case operations model the ASCII behaviour of the JavaScript originals; JS
string comparison is modelled by the lexicographic order on characters.
-/

namespace Tradeship

/- ### Generic string and path helpers -/

/-- Split a character list at every character satisfying `p`; separators are
dropped and empty pieces are kept (the model of JavaScript `split` on a
single-character class). -/
def splitOnPred (p : Char → Bool) : List Char → List (List Char)
  | [] => [[]]
  | c :: cs =>
    match splitOnPred p cs with
    | [] => [[]]
    | l :: ls => if p c then [] :: l :: ls else (c :: l) :: ls

/-- The model of `Array.prototype.join(sep)`. -/
def joinSep (sep : String) : List String → String
  | [] => ""
  | [x] => x
  | x :: y :: t => x ++ sep ++ joinSep sep (y :: t)

/-- Model of POSIX `path.basename` for the module ids appearing here (which
carry no trailing separator): the text after the last `/`. -/
def basename (s : String) : String :=
  ⟨(splitOnPred (· == '/') s.data).getLastD []⟩

/-- Length of the suffix that `path.extname` finds in a basename: the suffix
starting at the last `.`, except that a sole leading `.` (dotfile) and a
dot-free name have no extension. -/
def extLen (b : List Char) : Nat :=
  let suff := (b.reverse.takeWhile (· != '.')).length
  if suff = b.length then 0
  else if suff + 1 = b.length then 0
  else suff + 1

/-- Model of `path.basename(id, path.extname(id))`: the basename with its
extension stripped. -/
def basenameNoExt (s : String) : String :=
  let b := (basename s).data
  ⟨b.take (b.length - extLen b)⟩

/-- First-character class of `identRegex = /^[$a-z_][0-9a-z_$]*$/i` from
`src/dep-registry.js`. -/
def isIdentStart (c : Char) : Bool := c == '$' || c == '_' || c.isAlpha

/-- Remaining-character class of `identRegex`. -/
def isIdentRest (c : Char) : Bool := c == '$' || c == '_' || c.isAlphanum

/-- `identRegex.test` from `src/dep-registry.js`. -/
def identRegexTest (s : String) : Bool :=
  match s.data with
  | [] => false
  | c :: cs => isIdentStart c && cs.all isIdentRest

/-- `String.startsWith` stated on the character lists (so that concrete
evaluations reduce in the kernel). -/
def startsWithL (s pre : String) : Bool := pre.data.isPrefixOf s.data

/-- Modelled from the spec: `pkgRegex` is defined in `lib/common.js`, which is
not among the sources.  Per the spec (§3) a *package id* "does not start with
`./`, `../`, or `/` and contains no filesystem path traversal (e.g. `fs`,
`lodash`, `@scope/pkg`, `@scope/pkg/sub`)". -/
def pkgRegexTest (id : String) : Bool :=
  !id.data.isEmpty && !startsWithL id "." && !startsWithL id "/" &&
    (splitOnPred (· == '/') id.data).all
      (fun seg => !seg.isEmpty && seg != ['.'] && seg != ['.', '.'])

/-- Modelled from the spec: `fileRegex` is defined in `lib/common.js`, which is
not among the sources.  Per the spec a *file id* is path-like: it starts with
`/`, `./` or `../`. -/
def fileRegexTest (id : String) : Bool :=
  startsWithL id "/" || startsWithL id "./" || startsWithL id "../"

/-- POSIX `path.isAbsolute`. -/
def isAbsolute (id : String) : Bool := startsWithL id "/"

/-- Length of the common prefix of two segment lists. -/
def commonLen : List String → List String → Nat
  | a :: as, b :: bs => if a = b then commonLen as bs + 1 else 0
  | _, _ => 0

/-- Model of POSIX `path.relative` for already-normalized absolute paths:
drop the common leading segments, then climb with `..` and descend. -/
def relPath (fromP toP : String) : String :=
  let fs := ((splitOnPred (· == '/') fromP.data).filter (· ≠ [])).map
    (fun l => (⟨l⟩ : String))
  let ts := ((splitOnPred (· == '/') toP.data).filter (· ≠ [])).map
    (fun l => (⟨l⟩ : String))
  let k := commonLen fs ts
  joinSep "/" (List.replicate (fs.length - k) ".." ++ ts.drop k)

/-- `p[0].toUpperCase() + p.slice(1)` (ASCII model of `toUpperCase`). -/
def capitalize (t : List Char) : List Char :=
  match t with
  | [] => []
  | c :: cs => c.toUpper :: cs

/-- The camelCase derivation inside `populateIdents`: split on runs of
non-word/underscore characters (split on every non-alphanumeric and drop the
empty pieces, which models the `g`-global run split), keep the first token as
is and capitalize the following tokens. -/
def camelOf (base : String) : String :=
  let toks := (splitOnPred (fun c => !c.isAlphanum) base.data).filter (· ≠ [])
  ⟨(toks.enum.map (fun p => if p.1 = 0 then p.2 else capitalize p.2)).flatten⟩

/- ### Dependency registry (`src/dep-registry.js`) -/

/-- A registry entry as allocated by `register`. -/
structure Entry where
  version : String
  idents : List String
  defaults : List String
  props : List String
deriving DecidableEq

/-- A fresh entry with an irrelevant version, for concrete evaluations. -/
def emptyEntry : Entry := ⟨"", [], [], []⟩

/-- The base name from which `populateIdents` derives identifiers. -/
def baseOf (id : String) : String :=
  if !id.data.contains '/' then id
  else if pkgRegexTest id then basename id
  else basenameNoExt id

/-- `populateIdents` from `src/dep-registry.js`, with its three pushes in
source order: the base (guarded by `identRegex`), the camelCase form (guarded
by being different from the base), and the PascalCase form (unguarded). -/
def populateIdents (entry : Entry) (id : String) : Entry :=
  let base := baseOf id
  let e1 :=
    if identRegexTest base then { entry with idents := entry.idents ++ [base] }
    else entry
  let camel := camelOf base
  if camel.length > 0 then
    let e2 :=
      if camel ≠ base then { e1 with idents := e1.idents ++ [camel] } else e1
    { e2 with idents := e2.idents ++ [⟨capitalize camel.data⟩] }
  else e1

/-- The list of identifier names `populateIdents` appends for a module id: the
base name when it matches the identifier regex, then the camelCase form when
non-empty and different from the base, then (whenever the camelCase form is
non-empty, with no deduplication) the PascalCase form. -/
def identAdditions (id : String) : List String :=
  let base := baseOf id
  let camel := camelOf base
  (if identRegexTest base then [base] else [])
    ++ (if camel.length > 0 ∧ camel ≠ base then [camel] else [])
    ++ (if camel.length > 0 then [(⟨capitalize camel.data⟩ : String)] else [])

/-- The static export analysis result delivered by `parser.run`; the parser is
not among the sources, so its result shape is taken from its caller
`populateFile` and spec §4.2 (`none` models a parse failure). -/
structure Exports where
  hasExports : Bool
  idents : List String
  defaults : List String
  props : List String
deriving DecidableEq

/-- The promotion loop of `populateFile`: push every ident that is not yet in
`defaults`, checking against the growing list. -/
def pushDefaults (defaults idents : List String) : List String :=
  idents.foldl (fun ds i => if ds.contains i then ds else ds ++ [i]) defaults

/-- `populateFile` from `src/dep-registry.js`; reading the file and running
the parser are summarized by `res`. -/
def populateFile (entry : Entry) (filePath : String) (res : Option Exports) :
    Entry :=
  match res with
  | none => entry
  | some ex =>
    if ex.hasExports then
      let e := { entry with
        defaults := entry.defaults ++ ex.defaults,
        props := entry.props ++ ex.props,
        idents := entry.idents ++ ex.idents }
      let e := populateIdents e filePath
      if e.defaults.length > 0 then
        { e with defaults := pushDefaults e.defaults e.idents, idents := [] }
      else e
    else entry

/-- `populatePropsDefaults` from `src/dep-registry.js`; the sandboxed probe of
the package is summarized by `probe` (`none` when requiring it failed, in
which case the function returns early). -/
def populatePropsDefaults (entry : Entry)
    (probe : Option (List String × Bool)) : Entry :=
  match probe with
  | none => entry
  | some (props, hasDefault) =>
    let e := { entry with props := entry.props ++ props }
    if hasDefault then { e with defaults := e.defaults ++ e.idents, idents := [] }
    else e

/-- Inputs of one registry build: the builtin module list and runtime version,
the declared dependencies with their manifest versions, the project files
found by the directory walk (with mtime-derived versions and parse results),
the sandbox probe oracle, and the on-disk cache contents. -/
structure PopulateInput where
  nodeVersion : String
  builtins : List String
  deps : List (String × String)
  files : List (String × String × Option Exports)
  probes : String → Option (List String × Bool)
  cache : String → Option Entry

/-- `this.registry[id] = entry`: replace in place when the key exists,
otherwise append (JavaScript object key order). -/
def upsert (reg : List (String × Entry)) (id : String) (e : Entry) :
    List (String × Entry) :=
  if (reg.lookup id).isSome then
    reg.map (fun p => if p.1 = id then (id, e) else p)
  else reg ++ [(id, e)]

/-- `register` from `src/dep-registry.js` together with its caller's filling
of a fresh entry: on a cache hit with matching version the cached entry is
stored untouched and not rescanned, otherwise a fresh entry is built. -/
def registerStep (cache : String → Option Entry) (reg : List (String × Entry))
    (id version : String) (build : Entry → Entry) : List (String × Entry) :=
  match cache id with
  | some ce =>
    if ce.version = version then upsert reg id ce
    else upsert reg id (build ⟨version, [], [], []⟩)
  | none => upsert reg id (build ⟨version, [], [], []⟩)

/-- The registration pipeline of `populate` from `src/dep-registry.js`:
builtins, then declared dependencies, then project files.  (For a dependency
the code probes `node_modules/<id>`; the probe oracle is keyed by the registry
id here.) -/
def populateModel (inp : PopulateInput) : List (String × Entry) :=
  let reg := inp.builtins.foldl
    (fun reg id => registerStep inp.cache reg id inp.nodeVersion
      (fun e => populatePropsDefaults (populateIdents e id) (inp.probes id))) []
  let reg := inp.deps.foldl
    (fun reg p => registerStep inp.cache reg p.1 p.2
      (fun e => populatePropsDefaults (populateIdents e p.1) (inp.probes p.1)))
    reg
  inp.files.foldl
    (fun reg f => registerStep inp.cache reg f.1 f.2.1
      (fun e => populateFile e f.1 f.2.2)) reg

/-- The queried-entry invariant of spec §3: when an entry has defaults, all
its idents have been promoted into the defaults and cleared. -/
def EntryOK (e : Entry) : Prop := e.defaults ≠ [] → e.idents = []

/-- Every entry of the registry satisfies `EntryOK`. -/
def RegOK (reg : List (String × Entry)) : Prop := ∀ p ∈ reg, EntryOK p.2

/-- `DepRegistry.types`. -/
inductive DepType where
  | ident
  | default
  | prop
deriving DecidableEq

/-- A resolved dependency, `this.deps[name]`. -/
structure DepInfo where
  id : String
  priority : Nat
  type : DepType
deriving DecidableEq

/-- The priority assignment of `computeDeps` in `src/dep-registry.js`, exactly
as the code is written: builtin ids get 3, ids matching `pkgRegex` get 1, and
all other ids get 2. -/
def priorityOf (builtins : List String) (id : String) : Nat :=
  if builtins.contains id then 3
  else if pkgRegexTest id then 1
  else 2

/-- `associate` from `src/dep-registry.js`: the candidate replaces the stored
dep iff nothing is stored, or the stored priority is numerically *smaller*
than the candidate's (`dep.priority < priority`), or the stored dep is a prop
and the candidate is not. -/
def associate (deps : String → Option DepInfo) (name id : String)
    (priority : Nat) (ty : DepType) : String → Option DepInfo :=
  let replace :=
    match deps name with
    | none => true
    | some dep =>
      decide (dep.priority < priority) ||
        (decide (dep.type = DepType.prop) && decide (ty ≠ DepType.prop))
  if replace then fun n => if n = name then some ⟨id, priority, ty⟩ else deps n
  else deps

/-- Associate every name of one export-kind list. -/
def associateAll (deps : String → Option DepInfo) (names : List String)
    (id : String) (priority : Nat) (ty : DepType) : String → Option DepInfo :=
  names.foldl (fun d n => associate d n id priority ty) deps

/-- `computeDeps` from `src/dep-registry.js`: walk the registry in insertion
order, associating the idents, then the defaults, then the props of each
entry. -/
def computeDeps (builtins : List String) (registry : List (String × Entry)) :
    String → Option DepInfo :=
  registry.foldl
    (fun deps p =>
      let priority := priorityOf builtins p.1
      let deps := associateAll deps p.2.idents p.1 priority DepType.ident
      let deps := associateAll deps p.2.defaults p.1 priority DepType.default
      associateAll deps p.2.props p.1 priority DepType.prop)
    (fun _ => none)

/- ### Import statement composer (`src/lib/importer.js`) -/

/-- The style descriptor consumed by the composer. -/
structure Style where
  requireKeyword : String
  kind : String
  quote : String
  semi : String
  tab : String
  trailingComma : String
deriving DecidableEq

/-- A double-quote, semicolon, two-space require style for concrete runs. -/
def sampleStyle : Style := ⟨"require", "const", "\"", ";", "  ", ","⟩

/-- One value of `libsToAdd`. -/
structure Lib where
  idents : List String
  defaults : List String
  props : List String
deriving DecidableEq

/-- JavaScript truthiness of an optional string argument: absent and `""` are
falsy. -/
def truthy (o : Option String) : Bool := decide (o.getD "" ≠ "")

/-- `composeDestructure` from `src/lib/importer.js`. -/
def composeDestructure (style : Style) (props : List String)
    (multiline : Bool) : String :=
  if multiline then
    let propsText :=
      style.tab ++ joinSep (",\n" ++ style.tab) props ++ style.trailingComma
    "\x7b\n" ++ propsText ++ "\n\x7d"
  else "\x7b " ++ joinSep ", " props ++ " \x7d"

/-- `` `require(${quote}${id}${quote})` ``. -/
def requireTextOf (style : Style) (id : String) : String :=
  "require(" ++ style.quote ++ id ++ style.quote ++ ")"

/-- The statement text `composeRequireStatement` builds for a given
`multiline` flag (the body of the function once the argument shape is
fixed). -/
def composeRequireRender (style : Style) (id : String) (oi od : Option String)
    (props : List String) (multiline : Bool) : String :=
  if truthy oi then
    style.kind ++ " " ++ oi.getD "" ++ " = " ++ requireTextOf style id ++
      style.semi
  else if truthy od then
    style.kind ++ " " ++ od.getD "" ++ " = " ++ requireTextOf style id ++
      ".default" ++ style.semi
  else
    style.kind ++ " " ++ composeDestructure style props multiline ++ " = " ++
      requireTextOf style id ++ style.semi

/-- `composeRequireStatement` from `src/lib/importer.js`, called as the code
calls it (with `multiline` initially unset): in the props case a statement
longer than 80 characters is re-emitted with a multiline destructure. -/
def composeRequireStatement (style : Style) (id : String)
    (oi od : Option String) (props : List String) : String :=
  if truthy oi || truthy od then composeRequireRender style id oi od props false
  else
    let s := composeRequireRender style id oi od props false
    if s.length > 80 then composeRequireRender style id oi od props true else s

/-- The `parts` array of `composeImportStatement`: the default, the
namespace-as-ident, and (when a non-empty `props` argument is present) the
destructure. -/
def importParts (style : Style) (oi od : Option String)
    (props : Option (List String)) (multiline : Bool) : List String :=
  (if truthy od then [od.getD ""] else [])
    ++ (if truthy oi then ["* as " ++ oi.getD ""] else [])
    ++ (match props with
        | some ps =>
          if ps.length > 0 then [composeDestructure style ps multiline]
          else []
        | none => [])

/-- The statement text `composeImportStatement` builds for a given `multiline`
flag.  `props = some ps` models a present `props` argument (a destructure part
is included only when `ps` is non-empty, mirroring `props.length > 0`). -/
def composeImportRender (style : Style) (id : String) (oi od : Option String)
    (props : Option (List String)) (multiline : Bool) : String :=
  "import " ++ joinSep ", " (importParts style oi od props multiline) ++
    " from " ++ style.quote ++ id ++ style.quote ++ style.semi

/-- `composeImportStatement` from `src/lib/importer.js`: when a `props`
argument is present (even an empty list, which JavaScript counts as truthy)
and the single-line statement exceeds 80 characters, the statement is
re-emitted with `multiline` set.  (With an empty props list the re-emitted
text coincides with the single-line text, since no destructure part is
included either way.) -/
def composeImportStatement (style : Style) (id : String)
    (oi od : Option String) (props : Option (List String)) : String :=
  let s := composeImportRender style id oi od props false
  if props.isSome ∧ s.length > 80 then composeImportRender style id oi od props true
  else s

/-- `idents.sort()` / `defaults.sort()` / `props.sort()`: JavaScript's default
lexicographic sort, modelled by insertion sort under `≤` on strings. -/
def sortStr (l : List String) : List String := l.insertionSort (· ≤ ·)

/-- The default/ident pairing loop of the import branch of
`composeStatements`: each remaining default is paired with the ident of the
same index (absent when the idents run out), then the leftover idents are
emitted alone as namespace imports. -/
def pairStatements (style : Style) (id : String)
    (leftDefaults idents : List String) : List String :=
  (leftDefaults.enum.map
      (fun p => composeImportStatement style id (idents.get? p.1) (some p.2) none))
    ++ (idents.drop leftDefaults.length).map
      (fun i => composeImportStatement style id (some i) none none)

/-- `composeStatements` from `src/lib/importer.js`. -/
def composeStatements (style : Style) (lib : Lib) (id : String) : List String :=
  if lib.idents.isEmpty && lib.defaults.isEmpty && lib.props.isEmpty then []
  else
    let idents := sortStr lib.idents
    let defaults := sortStr lib.defaults
    let props := sortStr lib.props
    if style.requireKeyword = "require" then
      idents.map (fun i => composeRequireStatement style id (some i) none [])
        ++ defaults.map (fun d => composeRequireStatement style id none (some d) [])
        ++ (if props.isEmpty then []
            else [composeRequireStatement style id none none props])
    else
      if props.isEmpty then pairStatements style id defaults idents
      else
        composeImportStatement style id none defaults.head? (some props)
          :: pairStatements style id (defaults.drop 1) idents

/-- The order realized by `compareByBasename` from `src/lib/importer.js`:
by `basename`, ties broken by the full id. -/
def cmpBaseLe (a b : String) : Prop :=
  basename a < basename b ∨ (basename a = basename b ∧ a ≤ b)

instance : DecidableRel cmpBaseLe := fun a b => by
  unfold cmpBaseLe; infer_instance

instance : IsTotal String cmpBaseLe :=
  ⟨fun a b => by
    unfold cmpBaseLe
    rcases lt_trichotomy (basename a) (basename b) with h | h | h
    · exact Or.inl (Or.inl h)
    · rcases le_total a b with h2 | h2
      · exact Or.inl (Or.inr ⟨h, h2⟩)
      · exact Or.inr (Or.inr ⟨h.symm, h2⟩)
    · exact Or.inr (Or.inl h)⟩

instance : IsTrans String cmpBaseLe :=
  ⟨fun a b c hab hbc => by
    unfold cmpBaseLe at hab hbc ⊢
    rcases hab with h1 | ⟨e1, l1⟩
    · rcases hbc with h2 | ⟨e2, l2⟩
      · exact Or.inl (h1.trans h2)
      · exact Or.inl (lt_of_lt_of_eq h1 e2)
    · rcases hbc with h2 | ⟨e2, l2⟩
      · exact Or.inl (lt_of_eq_of_lt e1 h2)
      · exact Or.inr ⟨e1.trans e2, l1.trans l2⟩⟩

/-- The id rewriting loop at the top of `composeRequires`: every absolute id
is moved (to the end of the key order) under its `./`-prefixed,
forward-slash relative form. -/
def relativizeId (dirP id : String) : String :=
  let nid : String :=
    ⟨(relPath dirP id).data.map (fun c => if c = '\\' then '/' else c)⟩
  if !startsWithL nid "." then "./" ++ nid else nid

/-- The key set of `libs` after the absolute-id rewriting loop of
`composeRequires`. -/
def normalizeLibs (dirP : String) (libs : List (String × Lib)) :
    List (String × Lib) :=
  libs.filter (fun p => !isAbsolute p.1)
    ++ (libs.filter (fun p => isAbsolute p.1)).map
      (fun p => (relativizeId dirP p.1, p.2))

/-- Lookup in `libsToAdd`. -/
def libLookup (libs : List (String × Lib)) (id : String) : Lib :=
  (libs.lookup id).getD ⟨[], [], []⟩

/-- `composeRequires` from `src/lib/importer.js`: normalize absolute ids,
split into external and local groups, sort each group with
`compareByBasename`, compose the statements of each id, and join with a
single blank line between the groups when both are non-empty. -/
def composeRequires (style : Style) (dirP : String)
    (libs0 : List (String × Lib)) : String :=
  let libs := normalizeLibs dirP libs0
  let ids := libs.map Prod.fst
  let externalIDs :=
    (ids.filter (fun i => !fileRegexTest i)).insertionSort cmpBaseLe
  let localIDs := (ids.filter (fun i => fileRegexTest i)).insertionSort cmpBaseLe
  let ext :=
    externalIDs.flatMap (fun id => composeStatements style (libLookup libs id) id)
  let loc :=
    localIDs.flatMap (fun id => composeStatements style (libLookup libs id) id)
  joinSep "\n" (ext ++ (if !ext.isEmpty && !loc.isEmpty then [""] else []) ++ loc)

/-- The sorted external group of ids (for stating properties of
`composeRequires` on already-normalized inputs). -/
def extIdsOf (libs : List (String × Lib)) : List String :=
  ((libs.map Prod.fst).filter (fun i => !fileRegexTest i)).insertionSort
    cmpBaseLe

/-- The sorted local group of ids. -/
def locIdsOf (libs : List (String × Lib)) : List String :=
  ((libs.map Prod.fst).filter (fun i => fileRegexTest i)).insertionSort
    cmpBaseLe

/-- The statements composed for the external group. -/
def extStmtsOf (style : Style) (libs : List (String × Lib)) : List String :=
  (extIdsOf libs).flatMap (fun id => composeStatements style (libLookup libs id) id)

/-- The statements composed for the local group. -/
def locStmtsOf (style : Style) (libs : List (String × Lib)) : List String :=
  (locIdsOf libs).flatMap (fun id => composeStatements style (libLookup libs id) id)

/- ### Source rewriter (`rewriteCode` in `src/lib/importer.js`) -/

/-- The leading string directive as seen by the rewriter.  Modelled from the
spec: `context.getUseStrict` and `context.endsLine` live in `walker.js`, which
is not among the sources; per the spec's AST contract, locations carry
1-indexed lines and 0-indexed end-exclusive columns, and `ownsLine` records
`context.endsLine(directive)`. -/
structure Directive where
  endLine : Nat
  endColumn : Nat
  ownsLine : Bool
deriving DecidableEq

/-- `context.getLineText(line)`: the 1-indexed line of the source view (the
code indexes `textLines[end.line - 1]` for line `end.line`). -/
def getLineText (tl : List (List Char)) (line : Nat) : List Char :=
  tl.getD (line - 1) []

/-- The emission loop of `rewriteCode` for lines `1..textLines.length`: each
kept line followed by a newline, with the requires block (plus a newline)
spliced in right after the target line. -/
def rewriteLoopAux (target : Option Nat) (req : List Char) :
    Nat → List (List Char) → List Char
  | _, [] => []
  | line, l :: ls =>
    (l ++ ['\n'])
      ++ (if target = some line ∧ req ≠ [] then req ++ ['\n'] else [])
      ++ rewriteLoopAux target req (line + 1) ls

/-- The full emission loop of `rewriteCode`: line 0 is always removed, but the
requires block may be emitted there (prepending). -/
def rewriteLoop (tl : List (List Char)) (target : Option Nat)
    (req : List Char) : List Char :=
  (if target = some 0 ∧ req ≠ [] then req ++ ['\n'] else [])
    ++ rewriteLoopAux target req 1 tl

/-- The trailing-newline normalization at the end of `rewriteCode`: append a
newline when the text does not end with one, otherwise strip exactly one
newline when the text ends with two. -/
def normalizeEnd (l : List Char) : List Char :=
  if l.getLast? ≠ some '\n' then l ++ ['\n']
  else if l.dropLast.getLast? = some '\n' then l.dropLast
  else l

/-- The line split of the source view.  Modelled from the spec: the source
view (`walker.js`) is line-indexed over the `\n`-split of the file text. -/
def splitLines (cs : List Char) : List (List Char) := splitOnPred (· == '\n') cs

/-- Join lines back, a newline after each line. -/
def joinNl (tl : List (List Char)) : List Char := (tl.map (· ++ ['\n'])).flatten

/-- `rewriteCode` from `src/lib/importer.js`, specialized to a file with no
existing imports (`context.reqs = []`, so `linesToRemove = {0}` only) and with
the composed block passed in as `req0`.  The three target cases mirror lines
52-81 of the source: directive owning its line, directive sharing its line
(the only in-line edit), and no directive (prepend at line 0). -/
def rewriteCodeNoReqs (textLines : List (List Char))
    (directive : Option Directive) (req0 : List Char) : List Char :=
  let step : List (List Char) × Option Nat × List Char :=
    if req0 ≠ [] then
      match directive with
      | some d =>
        if d.ownsLine then (textLines, some d.endLine, '\n' :: (req0 ++ ['\n']))
        else
          let elt := getLineText textLines d.endLine
          (textLines.set (d.endLine - 1)
              (elt.take d.endColumn ++
                ('\n' :: '\n' ::
                  (req0 ++ '\n' :: '\n' :: elt.drop (d.endColumn + 1)))),
            none, req0)
      | none => (textLines, some 0, req0 ++ ['\n'])
    else (textLines, none, req0)
  normalizeEnd (rewriteLoop step.1 step.2.1 step.2.2)

/-- The import-free rewrite of a code string: split into the source view, run
the emission loop, normalize the trailing newlines. -/
def rewriteSimple (code : List Char) (directive : Option Directive)
    (req : List Char) : List Char :=
  rewriteCodeNoReqs (splitLines code) directive req

/-- `'\n'` does not occur in the string. -/
def noNl (s : String) : Prop := '\n' ∉ s.data

/-- `'\n'` occurs in the string: the observable mark of a multiline
statement. -/
def hasNl (s : String) : Prop := '\n' ∈ s.data

instance (s : String) : Decidable (noNl s) := by
  unfold noNl; infer_instance

instance (s : String) : Decidable (hasNl s) := by
  unfold hasNl; infer_instance

/-- Concrete source-view lines for witnesses: a directive sharing its line
with a call. -/
def sampleLines : List (List Char) := splitLines "\"use strict\";foo();".data

/-- A concrete composed block for witnesses. -/
def sampleReq : List Char := "const bar = require(\"bar\");".data

/-- A concrete `libsToAdd` with one external and one local id, for
witnesses. -/
def sampleLibs : List (String × Lib) :=
  [("b", ⟨["b"], [], []⟩), ("./a.js", ⟨["a"], [], []⟩)]

/-- A concrete registry build input for witnesses: one builtin, one declared
dependency, one project file, no cache. -/
def sampleInput : PopulateInput :=
  ⟨"v8.9.3", ["fs"], [("lodash", "1.0.0")],
    [("/p/a.js", "5", some ⟨true, ["x"], ["d"], []⟩)],
    fun id => if id = "fs" then some (["readFile"], false) else some ([], true),
    fun _ => none⟩

/- ### Library entrypoint (`exports.run` in `src/importer.js`) -/

/-- The synchronous guard of `exports.run` in `src/importer.js`: a falsy
`code` or `dir` (for string arguments, the empty string) throws before any
promise is created.  The promise-returning remainder of `run` is abstracted to
`Except.ok ()`. -/
def runEntry (code dir : String) : Except String Unit :=
  if code.data.isEmpty || dir.data.isEmpty then
    Except.error "must provide code and dir"
  else Except.ok ()

/- ### Helper lemmas -/

theorem populateIdents_unfold (entry : Entry) (id : String) :
    (populateIdents entry id).idents = entry.idents ++ identAdditions id
    ∧ (populateIdents entry id).defaults = entry.defaults
    ∧ (populateIdents entry id).props = entry.props
    ∧ (populateIdents entry id).version = entry.version := by
  unfold populateIdents identAdditions
  by_cases h1 : identRegexTest (baseOf id) <;>
    by_cases h2 : (camelOf (baseOf id)).length > 0 <;>
      by_cases h3 : camelOf (baseOf id) ≠ baseOf id <;>
        simp [h1, h2, h3, List.append_assoc]

theorem splitOnPred_ne_nil (p : Char → Bool) (cs : List Char) :
    splitOnPred p cs ≠ [] := by
  induction cs with
  | nil => simp [splitOnPred]
  | cons c cs ih =>
    unfold splitOnPred
    cases h : splitOnPred p cs with
    | nil => simp
    | cons l ls => by_cases hp : p c <;> simp [hp]

theorem joinNl_cons (x : List Char) (xs : List (List Char)) :
    joinNl (x :: xs) = x ++ '\n' :: joinNl xs := by
  simp [joinNl]

theorem joinNl_splitLines (cs : List Char) :
    joinNl (splitLines cs) = cs ++ ['\n'] := by
  induction cs with
  | nil => rfl
  | cons c cs ih =>
    unfold splitLines splitOnPred
    cases h : splitOnPred (· == '\n') cs with
    | nil => exact absurd h (splitOnPred_ne_nil _ _)
    | cons l ls =>
      unfold splitLines at ih
      rw [h] at ih
      by_cases hc : c = '\n'
      · subst hc
        simp only [beq_self_eq_true, if_true, joinNl_cons, ih]
        rfl
      · have hbeq : (c == '\n') = false := beq_eq_false_iff_ne.2 hc
        simp only [hbeq, Bool.false_eq_true, if_false, joinNl_cons]
        rw [joinNl_cons] at ih
        simp [← ih, List.append_assoc]

theorem rewriteLoopAux_req_nil (target : Option Nat) (n : Nat)
    (tl : List (List Char)) : rewriteLoopAux target [] n tl = joinNl tl := by
  induction tl generalizing n with
  | nil => rfl
  | cons l ls ih => simp [rewriteLoopAux, joinNl_cons, ih]

theorem rewriteLoopAux_target_none (req : List Char) (n : Nat)
    (tl : List (List Char)) : rewriteLoopAux none req n tl = joinNl tl := by
  induction tl generalizing n with
  | nil => rfl
  | cons l ls ih => simp [rewriteLoopAux, joinNl_cons, ih]

theorem rewriteLoop_req_nil (tl : List (List Char)) (target : Option Nat) :
    rewriteLoop tl target [] = joinNl tl := by
  simp [rewriteLoop, rewriteLoopAux_req_nil]

theorem rewriteLoop_target_none (tl : List (List Char)) (req : List Char) :
    rewriteLoop tl none req = joinNl tl := by
  simp [rewriteLoop, rewriteLoopAux_target_none]

theorem normalizeEnd_getLast (l : List Char) :
    (normalizeEnd l).getLast? = some '\n' := by
  unfold normalizeEnd
  by_cases h1 : l.getLast? ≠ some '\n'
  · simp [h1]
  · push_neg at h1
    by_cases h2 : l.dropLast.getLast? = some '\n' <;> simp [h1, h2]

theorem normalizeEnd_concat_newline (cs : List Char) :
    normalizeEnd (cs ++ ['\n']) =
      if cs.getLast? = some '\n' then cs else cs ++ ['\n'] := by
  unfold normalizeEnd
  have h1 : (cs ++ ['\n']).getLast? = some '\n' := List.getLast?_concat _
  have h2 : (cs ++ ['\n']).dropLast = cs := List.dropLast_concat
  simp [h1, h2]

theorem rewriteSimple_req_nil (code : List Char) (dir : Option Directive) :
    rewriteSimple code dir [] =
      if code.getLast? = some '\n' then code else code ++ ['\n'] := by
  unfold rewriteSimple rewriteCodeNoReqs
  simp [rewriteLoop_req_nil, joinNl_splitLines, normalizeEnd_concat_newline]

theorem getD_set_ne {α : Type} (l : List α) (i j : Nat) (a : α) (dflt : α)
    (h : j ≠ i) : (l.set i a).getD j dflt = l.getD j dflt := by
  induction l generalizing i j with
  | nil => simp
  | cons x xs ih =>
    cases i with
    | zero =>
      cases j with
      | zero => exact absurd rfl h
      | succ j => simp [List.getD]
    | succ i =>
      cases j with
      | zero => simp [List.getD]
      | succ j =>
        simp only [List.set, List.getD_cons_succ]
        exact ih i j (fun hji => h (by rw [hji]))

theorem populateIdents_defaults_eq (entry : Entry) (id : String) :
    (populateIdents entry id).defaults = entry.defaults :=
  (populateIdents_unfold entry id).2.1

theorem entryOK_fresh_external (version id : String)
    (probe : Option (List String × Bool)) :
    EntryOK (populatePropsDefaults (populateIdents ⟨version, [], [], []⟩ id)
      probe) := by
  unfold populatePropsDefaults
  cases probe with
  | none =>
    intro hd
    exact (hd (populateIdents_defaults_eq _ _)).elim
  | some pr =>
    cases pr with
    | mk props hasDefault =>
      cases hasDefault with
      | true => intro _; rfl
      | false =>
        intro hd
        exact (hd (populateIdents_defaults_eq _ _)).elim

theorem entryOK_fresh_file (version filePath : String) (res : Option Exports) :
    EntryOK (populateFile ⟨version, [], [], []⟩ filePath res) := by
  unfold populateFile
  cases res with
  | none => intro hd; exact (hd rfl).elim
  | some ex =>
    by_cases hx : ex.hasExports
    · simp only [hx, if_true]
      split
      · intro _; rfl
      · rename_i hlen
        intro hd
        exact (hd (List.length_eq_zero.1 (Nat.eq_zero_of_not_pos hlen))).elim
    · simp only [hx, Bool.false_eq_true, if_false]
      intro hd
      exact (hd rfl).elim

theorem regOK_upsert {reg : List (String × Entry)} {id : String} {e : Entry}
    (hreg : RegOK reg) (he : EntryOK e) : RegOK (upsert reg id e) := by
  unfold upsert
  split
  · intro p hp
    rcases List.mem_map.1 hp with ⟨q, hq, rfl⟩
    by_cases hqid : q.1 = id
    · simpa [hqid] using he
    · simpa [hqid] using hreg q hq
  · intro p hp
    rcases List.mem_append.1 hp with hp | hp
    · exact hreg p hp
    · rcases List.mem_singleton.1 hp with rfl
      exact he

theorem regOK_registerStep {cache : String → Option Entry}
    {reg : List (String × Entry)} {id version : String} {build : Entry → Entry}
    (hcache : ∀ i e, cache i = some e → EntryOK e) (hreg : RegOK reg)
    (hbuild : EntryOK (build ⟨version, [], [], []⟩)) :
    RegOK (registerStep cache reg id version build) := by
  unfold registerStep
  cases hc : cache id with
  | none => exact regOK_upsert hreg hbuild
  | some ce =>
    by_cases hv : ce.version = version
    · simp only [hv, if_true]
      exact regOK_upsert hreg (hcache id ce hc)
    · simp only [hv, if_false]
      exact regOK_upsert hreg hbuild

theorem regOK_foldl {α : Type}
    (f : List (String × Entry) → α → List (String × Entry))
    (hf : ∀ reg a, RegOK reg → RegOK (f reg a)) :
    ∀ (l : List α) (reg), RegOK reg → RegOK (l.foldl f reg) := by
  intro l
  induction l with
  | nil => intro reg h; exact h
  | cons a t ih => intro reg h; exact ih _ (hf reg a h)

theorem normalizeLibs_eq_self (dirP : String) (libs : List (String × Lib))
    (h : ∀ p ∈ libs, isAbsolute p.1 = false) :
    normalizeLibs dirP libs = libs := by
  unfold normalizeLibs
  have h1 : libs.filter (fun p => !isAbsolute p.1) = libs :=
    List.filter_eq_self.2 (fun a ha => by simp [h a ha])
  have h2 : libs.filter (fun p => isAbsolute p.1) = [] :=
    List.filter_eq_nil_iff.2 (fun a ha => by simp [h a ha])
  rw [h1, h2]
  simp

theorem data_append (s t : String) : (s ++ t).data = s.data ++ t.data := rfl

theorem noNl_append {s t : String} (hs : noNl s) (ht : noNl t) :
    noNl (s ++ t) := by
  intro h
  rcases List.mem_append.1 (by simpa [data_append] using h) with h | h
  · exact hs h
  · exact ht h

theorem hasNl_left {s t : String} (h : hasNl s) : hasNl (s ++ t) := by
  unfold hasNl at h ⊢
  rw [data_append]
  exact List.mem_append.2 (Or.inl h)

theorem hasNl_right {s t : String} (h : hasNl t) : hasNl (s ++ t) := by
  unfold hasNl at h ⊢
  rw [data_append]
  exact List.mem_append.2 (Or.inr h)

theorem noNl_joinSep {sep : String} :
    ∀ {l : List String}, noNl sep → (∀ s ∈ l, noNl s) → noNl (joinSep sep l)
  | [], _, _ => by
    intro h
    have h2 : '\n' ∈ ("" : String).data := h
    exact absurd h2 (by decide)
  | [x], _, hl => by
    have hx := hl x (List.mem_singleton.2 rfl)
    simpa [joinSep] using hx
  | x :: y :: u, hsep, hl => by
    have h1 : noNl x := hl x (by simp)
    have h2 : noNl (joinSep sep (y :: u)) :=
      noNl_joinSep hsep (fun s hs => hl s (List.mem_cons_of_mem x hs))
    show noNl (x ++ sep ++ joinSep sep (y :: u))
    exact noNl_append (noNl_append h1 hsep) h2

theorem hasNl_joinSep {sep : String} :
    ∀ {l : List String} {s : String}, s ∈ l → hasNl s →
      hasNl (joinSep sep l)
  | [], s, h, _ => absurd h (List.not_mem_nil s)
  | [x], s, h, hs => by
    rcases List.mem_singleton.1 h with rfl
    simpa [joinSep] using hs
  | x :: y :: u, s, h, hs => by
    rcases List.mem_cons.1 h with rfl | h2
    · show hasNl (s ++ sep ++ joinSep sep (y :: u))
      exact hasNl_left (hasNl_left hs)
    · show hasNl (x ++ sep ++ joinSep sep (y :: u))
      exact hasNl_right (hasNl_joinSep h2 hs)

theorem noNl_getD {o : Option String} (h : ∀ s, o = some s → noNl s) :
    noNl (o.getD "") := by
  cases o with
  | none => intro hx; exact (List.not_mem_nil '\n') hx
  | some s => exact h s rfl

theorem noNl_requireText (style : Style) (id : String) (hq : noNl style.quote)
    (hid : noNl id) : noNl (requireTextOf style id) :=
  noNl_append
    (noNl_append (noNl_append (noNl_append (by decide) hq) hid) hq)
    (by decide)

theorem noNl_requireRender (style : Style) (id : String) (oi od : Option String)
    (props : List String) (hk : noNl style.kind) (hq : noNl style.quote)
    (hsm : noNl style.semi) (hid : noNl id)
    (hoi : ∀ s, oi = some s → noNl s) (hod : ∀ s, od = some s → noNl s)
    (hprops : ∀ p ∈ props, noNl p) :
    noNl (composeRequireRender style id oi od props false) := by
  have hreq := noNl_requireText style id hq hid
  have hdestr : noNl (composeDestructure style props false) :=
    noNl_append (noNl_append (by decide) (noNl_joinSep (by decide) hprops))
      (by decide)
  unfold composeRequireRender
  split
  · exact noNl_append (noNl_append (noNl_append (noNl_append
      (noNl_append hk (by decide)) (noNl_getD hoi)) (by decide)) hreq) hsm
  · split
    · exact noNl_append (noNl_append (noNl_append (noNl_append (noNl_append
        (noNl_append hk (by decide)) (noNl_getD hod)) (by decide)) hreq)
        (by decide)) hsm
    · exact noNl_append (noNl_append (noNl_append (noNl_append
        (noNl_append hk (by decide)) hdestr) (by decide)) hreq) hsm

theorem hasNl_requireRender_multiline (style : Style) (id : String)
    (ps : List String) :
    hasNl (composeRequireRender style id none none ps true) := by
  have hdestr : hasNl (composeDestructure style ps true) :=
    hasNl_right (by decide)
  exact hasNl_left (hasNl_left (hasNl_left (hasNl_right hdestr)))

theorem noNl_importParts (style : Style) (oi od : Option String)
    (props : Option (List String))
    (hoi : ∀ s, oi = some s → noNl s) (hod : ∀ s, od = some s → noNl s)
    (hps : ∀ ps, props = some ps → ∀ p ∈ ps, noNl p) :
    ∀ s ∈ importParts style oi od props false, noNl s := by
  intro s hs
  unfold importParts at hs
  rcases List.mem_append.1 hs with hs | hs
  · rcases List.mem_append.1 hs with hs | hs
    · by_cases h : truthy od = true
      · rw [if_pos h] at hs
        rcases List.mem_singleton.1 hs with rfl
        exact noNl_getD hod
      · rw [if_neg h] at hs
        exact absurd hs (List.not_mem_nil s)
    · by_cases h : truthy oi = true
      · rw [if_pos h] at hs
        rcases List.mem_singleton.1 hs with rfl
        exact noNl_append (by decide) (noNl_getD hoi)
      · rw [if_neg h] at hs
        exact absurd hs (List.not_mem_nil s)
  · cases props with
    | none => exact absurd hs (List.not_mem_nil s)
    | some ps =>
      have hs2 : s ∈ (if ps.length > 0 then
          [composeDestructure style ps false] else []) := hs
      by_cases hl : ps.length > 0
      · rw [if_pos hl] at hs2
        rcases List.mem_singleton.1 hs2 with rfl
        exact noNl_append (noNl_append (by decide)
          (noNl_joinSep (by decide) (hps ps rfl))) (by decide)
      · rw [if_neg hl] at hs2
        exact absurd hs2 (List.not_mem_nil s)

theorem noNl_importRender (style : Style) (id : String) (oi od : Option String)
    (props : Option (List String)) (hq : noNl style.quote)
    (hsm : noNl style.semi) (hid : noNl id)
    (hoi : ∀ s, oi = some s → noNl s) (hod : ∀ s, od = some s → noNl s)
    (hps : ∀ ps, props = some ps → ∀ p ∈ ps, noNl p) :
    noNl (composeImportRender style id oi od props false) := by
  unfold composeImportRender
  exact noNl_append (noNl_append (noNl_append (noNl_append (noNl_append
    (noNl_append (by decide)
      (noNl_joinSep (by decide) (noNl_importParts style oi od props hoi hod hps)))
    (by decide)) hq) hid) hq) hsm

theorem hasNl_importRender_multiline (style : Style) (id : String)
    (oi od : Option String) (ps : List String) (hps : ps ≠ []) :
    hasNl (composeImportRender style id oi od (some ps) true) := by
  have hl : ps.length > 0 := List.length_pos.2 hps
  have hdestr : hasNl (composeDestructure style ps true) :=
    hasNl_right (by decide)
  have hmem : composeDestructure style ps true ∈
      importParts style oi od (some ps) true := by
    unfold importParts
    simp [hl]
  exact hasNl_left (hasNl_left (hasNl_left (hasNl_left (hasNl_left
    (hasNl_right (hasNl_joinSep hmem hdestr))))))

theorem importRender_empty_props (style : Style) (id : String)
    (oi od : Option String) (m : Bool) :
    composeImportRender style id oi od (some []) m =
      composeImportRender style id oi od none m := rfl

theorem importRender_none_multiline (style : Style) (id : String)
    (oi od : Option String) (m : Bool) :
    composeImportRender style id oi od none m =
      composeImportRender style id oi od none false := rfl

/- ### Claim theorems -/

/-- Claim C1: the spec says priority 1 goes to project-local file ids, 2 to
declared package dependencies, 3 to builtins, and that a candidate replaces
`deps[name]` iff the slot is absent, or the existing priority is numerically
*greater* than the new one, or the existing entry is a prop and the new one is
not, so that lower numbers win.  The code of `computeDeps`/`associate`
contradicts this (and its own comments): ids matching `pkgRegex` get
priority 1 and other non-builtin ids (project files) get 2, and `associate`
replaces when the existing priority is numerically *smaller*
(`dep.priority < priority`), so the numerically largest priority wins.  On a
registry holding the builtin `path` and a project file `/proj/path.js` that
both export the ident `path`, the builtin (priority 3) is kept. -/
theorem computeDeps_builtin_wins_bug :
    computeDeps ["path"]
        [("path", ⟨"v8.9.3", ["path"], [], []⟩),
          ("/proj/path.js", ⟨"1", ["path"], [], []⟩)]
        "path" = some ⟨"path", 3, DepType.ident⟩
    ∧ computeDeps ["path"]
        [("path", ⟨"v8.9.3", ["path"], [], []⟩),
          ("/proj/path.js", ⟨"1", ["path"], [], []⟩)]
        "path" ≠ some ⟨"/proj/path.js", 1, DepType.ident⟩
    ∧ priorityOf ["path"] "/proj/path.js" = 2
    ∧ priorityOf ["path"] "lodash" = 1 := by
  refine ⟨by decide, by decide, by decide, by decide⟩

/-- Claim C2, counterexample: when the parser yields nothing for
`/proj/foo.js`, `populateFile` leaves the entry's idents empty, although the
filename-derived identifiers would be `["foo", "Foo"]` — the claim says the
entry still receives them. -/
theorem populateFile_parse_failure_drops_idents :
    (populateFile emptyEntry "/proj/foo.js" none).idents = []
    ∧ identAdditions "/proj/foo.js" = ["foo", "Foo"] := by
  refine ⟨by decide, by decide⟩

/-- Claim C2, amended: if static export analysis of a project file fails (the
parser yields no exports, or reports no exports), the failure is swallowed for
that file alone, but the registry entry receives *nothing*: the id-derived
identifiers are only added when the file has exports, so the entry is left
exactly as it was. -/
theorem populateFile_no_exports_id (entry : Entry) (filePath : String)
    (res : Option Exports)
    (h : res = none ∨ ∃ ex, res = some ex ∧ ex.hasExports = false) :
    populateFile entry filePath res = entry := by
  rcases h with rfl | ⟨ex, rfl, hex⟩
  · rfl
  · simp [populateFile, hex]

theorem populateFile_no_exports_id_witness :
    ((none : Option Exports) = none
        ∨ ∃ ex, (none : Option Exports) = some ex ∧ ex.hasExports = false)
    ∧ populateFile emptyEntry "/proj/foo.js" none = emptyEntry :=
  ⟨Or.inl rfl,
    populateFile_no_exports_id emptyEntry "/proj/foo.js" none (Or.inl rfl)⟩

/-- Claim C3, counterexample: for id `"Foo"` (no `/`, so base = `"Foo"`), the
claim predicts the additions `Foo` (identifier-regex match) and `foo` (its
camelCase, "first token lowercased") and `Foo` (PascalCase), deduplicated.
The code instead keeps the first token of the camelCase split as is and pushes
the PascalCase unconditionally, yielding the duplicated `["Foo", "Foo"]` and
never `"foo"`. -/
theorem populateIdents_dup_counterexample :
    (populateIdents emptyEntry "Foo").idents = ["Foo", "Foo"]
    ∧ ¬ (populateIdents emptyEntry "Foo").idents.Nodup
    ∧ "foo" ∉ (populateIdents emptyEntry "Foo").idents := by
  refine ⟨by decide, by decide, by decide⟩

/-- Claim C3, amended: for every module id, `populateIdents` takes base = the
full id when it contains no `/`, `basename(id)` for package ids, and basename
with extension stripped for file ids; it appends, in order: base iff base
matches the identifier regex; the camelCase of base (split on non-word or
underscore runs, first token kept *as is*, subsequent tokens TitleCased) iff
it is non-empty and differs from base; and the PascalCase (camelCase with
first letter uppercased) iff the camelCase is non-empty — with no
deduplication of the PascalCase, which duplicates an earlier addition whenever
the camelCase begins with a character that uppercases to itself.  Nothing else
on the entry changes. -/
theorem populateIdents_appends_amended (entry : Entry) (id : String) :
    (populateIdents entry id).idents = entry.idents ++ identAdditions id
    ∧ (populateIdents entry id).defaults = entry.defaults
    ∧ (populateIdents entry id).props = entry.props
    ∧ (populateIdents entry id).version = entry.version :=
  populateIdents_unfold entry id

/-- Claim C10: `exports.run` in `src/importer.js` throws synchronously with
the message "must provide code and dir" whenever `code` or `dir` is falsy (for
string arguments: empty), instead of producing the promise of rewritten
code. -/
theorem run_guard_throws (code dir : String) (h : code = "" ∨ dir = "") :
    runEntry code dir = Except.error "must provide code and dir" := by
  rcases h with rfl | rfl
  · rfl
  · unfold runEntry
    have hd : ("" : String).data.isEmpty = true := rfl
    rw [hd, Bool.or_true]
    rfl

theorem run_guard_throws_witness :
    (("" : String) = "" ∨ ("/proj" : String) = "")
    ∧ runEntry "" "/proj" = Except.error "must provide code and dir" :=
  ⟨Or.inl rfl, run_guard_throws "" "/proj" (Or.inl rfl)⟩

/-- Claim C7, counterexample: for the import-free input `"a\n\n"` the
rewritten text is `"a\n\n"` again — it ends with two consecutive newlines, not
exactly one, because the final normalization strips at most a single
newline. -/
theorem rewriteCode_two_trailing_newlines :
    rewriteSimple "a\n\n".data none [] = "a\n\n".data
    ∧ (rewriteSimple "a\n\n".data none []).dropLast.getLast? = some '\n' := by
  refine ⟨by decide, by decide⟩

/-- Claim C7, amended: the string returned by `rewriteCode` always ends with
`'\n'`, but not necessarily with exactly one: the final normalization appends
a newline when none is present and strips exactly one when at least two are
present, so for an import-free input the output ends in two consecutive
newlines iff the input already did. -/
theorem rewriteCode_trailing_newline (code req : List Char)
    (dir : Option Directive) :
    (rewriteSimple code dir req).getLast? = some '\n'
    ∧ (req = [] →
        ((rewriteSimple code dir req).dropLast.getLast? = some '\n' ↔
          code.getLast? = some '\n' ∧ code.dropLast.getLast? = some '\n')) := by
  constructor
  · unfold rewriteSimple rewriteCodeNoReqs
    exact normalizeEnd_getLast _
  · rintro rfl
    rw [rewriteSimple_req_nil]
    by_cases hc : code.getLast? = some '\n'
    · simp [hc]
    · simp [hc, List.dropLast_concat]

theorem rewriteCode_trailing_newline_witness :
    (([] : List Char) = [])
    ∧ (rewriteSimple "a".data none []).getLast? = some '\n'
    ∧ ((rewriteSimple "a".data none []).dropLast.getLast? = some '\n' ↔
        "a".data.getLast? = some '\n' ∧ "a".data.dropLast.getLast? = some '\n') :=
  ⟨rfl, (rewriteCode_trailing_newline "a".data [] none).1,
    (rewriteCode_trailing_newline "a".data [] none).2 rfl⟩

/-- Claim C8, counterexample: with no existing imports and an empty composed
block, the input `"a"` (no trailing newline) is rewritten to `"a\n"`, which is
not equal to the input. -/
theorem rewriteCode_not_identity :
    rewriteSimple "a".data none (composeRequires sampleStyle "/" []).data ≠
      "a".data := by
  decide

/-- Claim C8, amended: if the file contains no existing imports and
`libsToAdd` would emit no statements (the composed block is empty), the
rewriter returns the input exactly when the input ends with a newline;
otherwise it returns the input with a single `'\n'` appended. -/
theorem rewriteCode_empty_block (code : List Char) (dir : Option Directive)
    (style : Style) (dirPath : String) (libs : List (String × Lib))
    (h : composeRequires style dirPath libs = "") :
    rewriteSimple code dir (composeRequires style dirPath libs).data =
      if code.getLast? = some '\n' then code else code ++ ['\n'] := by
  rw [h]
  exact rewriteSimple_req_nil code dir

theorem rewriteCode_empty_block_witness :
    composeRequires sampleStyle "/" [] = ""
    ∧ rewriteSimple "a\n".data none (composeRequires sampleStyle "/" []).data =
        if "a\n".data.getLast? = some '\n' then "a\n".data
        else "a\n".data ++ ['\n'] :=
  ⟨rfl, rewriteCode_empty_block "a\n".data none sampleStyle "/" [] rfl⟩

/-- Claim C9, counterexample: for the one-line input `"use strict";foo();`
with the directive ending at column 13 (exclusive) and a non-empty composed
block, the claim says every character of the rest of the line (`foo();`)
appears unchanged in the output; but the splice keeps
`slice(0, end.column)` and `slice(end.column + 1)`, dropping the character at
the end column — here the `f` — so no `f` occurs anywhere in the output. -/
theorem rewriteCode_directive_drops_char :
    'f' ∉ rewriteSimple "\"use strict\";foo();".data (some ⟨1, 13, false⟩)
        sampleReq
    ∧ 'f' ∈ "foo();".data := by
  refine ⟨by decide, by decide⟩

/-- Claim C9, amended: when the file has no existing imports, the composed
block is non-empty, and the leading string directive shares its line with
other text, the rewriter splices the block into that line's text, bracketed by
blank lines, between the prefix ending at the directive's end column and the
suffix starting one character *after* the end column — the single character at
the end column (ordinarily the space following the directive) is dropped — and
every other line of the input appears unchanged. -/
theorem rewriteCode_directive_splice (tl : List (List Char)) (d : Directive)
    (req : List Char) (hreq : req ≠ []) (hown : d.ownsLine = false) :
    rewriteCodeNoReqs tl (some d) req =
      normalizeEnd (joinNl (tl.set (d.endLine - 1)
        ((getLineText tl d.endLine).take d.endColumn ++
          ('\n' :: '\n' :: (req ++ '\n' :: '\n' ::
            (getLineText tl d.endLine).drop (d.endColumn + 1))))))
    ∧ ∀ i, i ≠ d.endLine - 1 →
        (tl.set (d.endLine - 1)
            ((getLineText tl d.endLine).take d.endColumn ++
              ('\n' :: '\n' :: (req ++ '\n' :: '\n' ::
                (getLineText tl d.endLine).drop (d.endColumn + 1))))).getD i []
          = tl.getD i [] := by
  constructor
  · unfold rewriteCodeNoReqs
    simp only [hreq, hown, if_false, if_true, ne_eq, not_false_eq_true,
      Bool.false_eq_true]
    rw [rewriteLoop_target_none]
  · intro i hi
    exact getD_set_ne _ _ _ _ _ hi

theorem rewriteCode_directive_splice_witness :
    (sampleReq ≠ [])
    ∧ ((⟨1, 13, false⟩ : Directive).ownsLine = false)
    ∧ (rewriteCodeNoReqs sampleLines (some ⟨1, 13, false⟩) sampleReq =
        normalizeEnd (joinNl (sampleLines.set 0
          ((getLineText sampleLines 1).take 13 ++
            ('\n' :: '\n' :: (sampleReq ++ '\n' :: '\n' ::
              (getLineText sampleLines 1).drop 14)))))
      ∧ ∀ i, i ≠ 0 →
          (sampleLines.set 0
              ((getLineText sampleLines 1).take 13 ++
                ('\n' :: '\n' :: (sampleReq ++ '\n' :: '\n' ::
                  (getLineText sampleLines 1).drop 14)))).getD i []
            = sampleLines.getD i []) :=
  ⟨by decide, rfl,
    rewriteCode_directive_splice sampleLines ⟨1, 13, false⟩ sampleReq
      (by decide) rfl⟩

/-- Claim C4: for every registry entry produced by the populate pipeline —
entries filled by the external package probe (builtins and declared
dependencies), entries filled by project-file analysis, and entries reused
from the on-disk cache (assuming the cached entries themselves satisfy the
invariant, as entries persisted by a previous run do) — the idents and
defaults sets are disjoint, and when defaults is non-empty all idents have
been promoted and idents is empty. -/
theorem registry_idents_defaults_disjoint (inp : PopulateInput)
    (hcache : ∀ id e, inp.cache id = some e → e.defaults ≠ [] → e.idents = []) :
    ∀ p ∈ populateModel inp,
      (∀ x ∈ p.2.idents, x ∉ p.2.defaults)
      ∧ (p.2.defaults ≠ [] → p.2.idents = []) := by
  have hC : ∀ i e, inp.cache i = some e → EntryOK e := hcache
  have hnil : RegOK ([] : List (String × Entry)) :=
    fun p hp => absurd hp (List.not_mem_nil p)
  have hmain : RegOK (populateModel inp) := by
    unfold populateModel
    exact regOK_foldl _
      (fun reg a h => regOK_registerStep hC h (entryOK_fresh_file _ _ _)) _ _
      (regOK_foldl _
        (fun reg a h => regOK_registerStep hC h (entryOK_fresh_external _ _ _))
        _ _
        (regOK_foldl _
          (fun reg a h =>
            regOK_registerStep hC h (entryOK_fresh_external _ _ _))
          _ _ hnil))
  intro p hp
  have he := hmain p hp
  refine ⟨?_, he⟩
  intro x hx hxd
  by_cases hdef : p.2.defaults = []
  · rw [hdef] at hxd
    exact (List.not_mem_nil x) hxd
  · rw [he hdef] at hx
    exact (List.not_mem_nil x) hx

theorem registry_idents_defaults_disjoint_witness :
    (∀ id e, sampleInput.cache id = some e → e.defaults ≠ [] → e.idents = [])
    ∧ ∀ p ∈ populateModel sampleInput,
        (∀ x ∈ p.2.idents, x ∉ p.2.defaults)
        ∧ (p.2.defaults ≠ [] → p.2.idents = []) :=
  ⟨fun _ _ h => (nomatch h),
    registry_idents_defaults_disjoint sampleInput (fun _ _ h => (nomatch h))⟩

/-- Claim C5: `composeRequires` emits all external (package-id) statements
first, then all local (file-id) statements, with exactly one blank separator
line between the two groups when both are non-empty; within each group the ids
are ordered by `basename(id)`, ties broken by the full id; and each emitted
statement is composed from lexicographically sorted idents, defaults, and
props lists (`sortStr` is sorted and a permutation of its input). -/
theorem composeRequires_grouped_sorted (style : Style) (dirP : String)
    (libs : List (String × Lib)) (l : List String)
    (habs : ∀ p ∈ libs, isAbsolute p.1 = false) :
    composeRequires style dirP libs =
      joinSep "\n" (extStmtsOf style libs
        ++ (if !(extStmtsOf style libs).isEmpty &&
              !(locStmtsOf style libs).isEmpty then [""] else [])
        ++ locStmtsOf style libs)
    ∧ List.Sorted cmpBaseLe (extIdsOf libs)
    ∧ List.Sorted cmpBaseLe (locIdsOf libs)
    ∧ (∀ i ∈ extIdsOf libs, fileRegexTest i = false)
    ∧ (∀ i ∈ locIdsOf libs, fileRegexTest i = true)
    ∧ List.Sorted (· ≤ ·) (sortStr l)
    ∧ (sortStr l).Perm l := by
  refine ⟨?_, ?_, ?_, ?_, ?_, ?_, ?_⟩
  · unfold composeRequires extStmtsOf locStmtsOf extIdsOf locIdsOf
    rw [normalizeLibs_eq_self dirP libs habs]
  · exact List.sorted_insertionSort cmpBaseLe _
  · exact List.sorted_insertionSort cmpBaseLe _
  · intro i hi
    have hmem := (List.perm_insertionSort cmpBaseLe _).mem_iff.1 hi
    have := (List.mem_filter.1 hmem).2
    simpa using this
  · intro i hi
    have hmem := (List.perm_insertionSort cmpBaseLe _).mem_iff.1 hi
    exact (List.mem_filter.1 hmem).2
  · exact List.sorted_insertionSort _ _
  · exact List.perm_insertionSort _ _

theorem composeRequires_grouped_sorted_witness :
    (∀ p ∈ sampleLibs, isAbsolute p.1 = false)
    ∧ (composeRequires sampleStyle "/" sampleLibs =
        joinSep "\n" (extStmtsOf sampleStyle sampleLibs
          ++ (if !(extStmtsOf sampleStyle sampleLibs).isEmpty &&
                !(locStmtsOf sampleStyle sampleLibs).isEmpty then [""] else [])
          ++ locStmtsOf sampleStyle sampleLibs)
      ∧ List.Sorted cmpBaseLe (extIdsOf sampleLibs)
      ∧ List.Sorted cmpBaseLe (locIdsOf sampleLibs)
      ∧ (∀ i ∈ extIdsOf sampleLibs, fileRegexTest i = false)
      ∧ (∀ i ∈ locIdsOf sampleLibs, fileRegexTest i = true)
      ∧ List.Sorted (· ≤ ·) (sortStr ["z", "a"])
      ∧ (sortStr ["z", "a"]).Perm ["z", "a"]) :=
  ⟨by decide,
    composeRequires_grouped_sorted sampleStyle "/" sampleLibs ["z", "a"]
      (by decide)⟩

/-- Claim C6: a composed statement is re-emitted in multiline form (its text
then contains a newline: the destructure is opened across lines) iff it
contains a props destructure and its single-line rendering exceeds 80
characters; a statement without a props destructure — a require of an ident or
of a default, an import with no props argument or with an empty one — is never
emitted multiline, however long it is.  The hypotheses say the style
fragments and the names contain no newline themselves. -/
theorem composeStatement_multiline_iff (style : Style) (id i d : String)
    (oi od : Option String) (ps : List String)
    (hk : noNl style.kind) (hq : noNl style.quote) (hsm : noNl style.semi)
    (hid : noNl id) (hi : noNl i) (hd : noNl d)
    (hips : i ≠ "") (hdps : d ≠ "") (hps : ps ≠ [])
    (hpsc : ∀ p ∈ ps, noNl p)
    (hoi : ∀ s, oi = some s → noNl s) (hod : ∀ s, od = some s → noNl s) :
    (hasNl (composeRequireStatement style id none none ps) ↔
      (composeRequireRender style id none none ps false).length > 80)
    ∧ ¬ hasNl (composeRequireStatement style id (some i) none [])
    ∧ ¬ hasNl (composeRequireStatement style id none (some d) [])
    ∧ (hasNl (composeImportStatement style id oi od (some ps)) ↔
      (composeImportRender style id oi od (some ps) false).length > 80)
    ∧ ¬ hasNl (composeImportStatement style id oi od none)
    ∧ ¬ hasNl (composeImportStatement style id oi od (some [])) := by
  refine ⟨?_, ?_, ?_, ?_, ?_, ?_⟩
  · by_cases hlen :
        (composeRequireRender style id none none ps false).length > 80
    · have hres : composeRequireStatement style id none none ps =
          composeRequireRender style id none none ps true := by
        unfold composeRequireStatement
        simp [truthy, hlen]
      rw [hres]
      exact iff_of_true (hasNl_requireRender_multiline style id ps) hlen
    · have hres : composeRequireStatement style id none none ps =
          composeRequireRender style id none none ps false := by
        unfold composeRequireStatement
        simp [truthy, hlen]
      rw [hres]
      exact iff_of_false
        (noNl_requireRender style id none none ps hk hq hsm hid
          (fun s hs => (nomatch hs)) (fun s hs => (nomatch hs)) hpsc) hlen
  · have ht : truthy (some i) = true := by simp [truthy, hips]
    have hres : composeRequireStatement style id (some i) none [] =
        composeRequireRender style id (some i) none [] false := by
      unfold composeRequireStatement
      simp [ht]
    rw [hres]
    exact noNl_requireRender style id (some i) none [] hk hq hsm hid
      (fun s hs => by injection hs with h2; exact h2 ▸ hi)
      (fun s hs => (nomatch hs)) (fun p hp => absurd hp (List.not_mem_nil p))
  · have ht : truthy (some d) = true := by simp [truthy, hdps]
    have hres : composeRequireStatement style id none (some d) [] =
        composeRequireRender style id none (some d) [] false := by
      unfold composeRequireStatement
      have hcond : (truthy (none : Option String) || truthy (some d)) = true := by
        rw [ht]; rfl
      rw [hcond]
      simp
    rw [hres]
    exact noNl_requireRender style id none (some d) [] hk hq hsm hid
      (fun s hs => (nomatch hs))
      (fun s hs => by injection hs with h2; exact h2 ▸ hd)
      (fun p hp => absurd hp (List.not_mem_nil p))
  · by_cases hlen :
        (composeImportRender style id oi od (some ps) false).length > 80
    · have hres : composeImportStatement style id oi od (some ps) =
          composeImportRender style id oi od (some ps) true := by
        unfold composeImportStatement
        simp [hlen]
      rw [hres]
      exact iff_of_true (hasNl_importRender_multiline style id oi od ps hps)
        hlen
    · have hres : composeImportStatement style id oi od (some ps) =
          composeImportRender style id oi od (some ps) false := by
        unfold composeImportStatement
        simp [hlen]
      rw [hres]
      exact iff_of_false
        (noNl_importRender style id oi od (some ps) hq hsm hid hoi hod
          (fun ps2 hps2 => by injection hps2 with h2; exact h2 ▸ hpsc)) hlen
  · exact noNl_importRender style id oi od none hq hsm hid hoi hod
      (fun ps2 hps2 => (nomatch hps2))
  · by_cases hlen :
        (composeImportRender style id oi od (some []) false).length > 80
    · have hres : composeImportStatement style id oi od (some []) =
          composeImportRender style id oi od (some []) true := by
        unfold composeImportStatement
        simp [hlen]
      rw [hres, importRender_empty_props, importRender_none_multiline]
      exact noNl_importRender style id oi od none hq hsm hid hoi hod
        (fun ps2 hps2 => (nomatch hps2))
    · have hres : composeImportStatement style id oi od (some []) =
          composeImportRender style id oi od (some []) false := by
        unfold composeImportStatement
        simp [hlen]
      rw [hres, importRender_empty_props]
      exact noNl_importRender style id oi od none hq hsm hid hoi hod
        (fun ps2 hps2 => (nomatch hps2))

theorem composeStatement_multiline_iff_witness :
    (noNl sampleStyle.kind ∧ noNl sampleStyle.quote ∧ noNl sampleStyle.semi
      ∧ noNl "mod" ∧ noNl "x" ∧ noNl "y"
      ∧ ("x" : String) ≠ "" ∧ ("y" : String) ≠ ""
      ∧ (["p1", "p2"] : List String) ≠ []
      ∧ (∀ p ∈ (["p1", "p2"] : List String), noNl p))
    ∧ ((hasNl (composeRequireStatement sampleStyle "mod" none none
          ["p1", "p2"]) ↔
        (composeRequireRender sampleStyle "mod" none none ["p1", "p2"]
          false).length > 80)
      ∧ ¬ hasNl (composeRequireStatement sampleStyle "mod" (some "x") none [])
      ∧ ¬ hasNl (composeRequireStatement sampleStyle "mod" none (some "y") [])
      ∧ (hasNl (composeImportStatement sampleStyle "mod" (some "ns")
            (some "dv") (some ["p1", "p2"])) ↔
        (composeImportRender sampleStyle "mod" (some "ns") (some "dv")
          (some ["p1", "p2"]) false).length > 80)
      ∧ ¬ hasNl (composeImportStatement sampleStyle "mod" (some "ns")
          (some "dv") none)
      ∧ ¬ hasNl (composeImportStatement sampleStyle "mod" (some "ns")
          (some "dv") (some []))) :=
  ⟨⟨by decide, by decide, by decide, by decide, by decide, by decide,
      by decide, by decide, by decide, by decide⟩,
    composeStatement_multiline_iff sampleStyle "mod" "x" "y" (some "ns")
      (some "dv") ["p1", "p2"] (by decide) (by decide) (by decide) (by decide)
      (by decide) (by decide) (by decide) (by decide) (by decide) (by decide)
      (fun s hs => by cases hs; decide) (fun s hs => by cases hs; decide)⟩

end Tradeship
